import Mathlib

/-!
# ofxTSNE, example-imagesGrid: layout orchestration

A shallow embedding of `example-imagesGrid/src/ofApp.cpp`:

* `scan_dir_imgs`      recursive discovery of image files,
* `best_grid_size`     choice of the grid side lengths,
* `save_tsne_to_json`  the metadata records written next to the composite,
* `setup`              the orchestration: scan, size check, load, solve, export, render.

Values of type `float` and `double` are rationals.  In `best_grid_size` and
`save_tsne_to_json` the operations are exact: `ceil(sqrt(n))` is the integer
ceiling of the real square root, `round` rounds half away from zero.  In the
drawing loop of `setup` the rounding of every `float` operation is a parameter
(`Collaborators.toFloat`): `binary32` is the rounding of the machine,
`exactArithmetic` the computation in exact rationals.  The behaviour of the
library call `ofExit()` is a parameter as well (`Collaborators.exitCall`).
-/

namespace OfxTSNE

/-! ## Grid shape selection -/

/-- Linear search for the least `s` with `n ≤ s * s`, starting at `s`, with
`fuel` candidates left to try. -/
def ceilSqrtFrom (n : Nat) : Nat → Nat → Nat
  | 0, s => s
  | fuel + 1, s => if n ≤ s * s then s else ceilSqrtFrom n fuel (s + 1)

/-- The value of `ceil(sqrt(n))` for a natural number `n`: the least `s` with
`n ≤ s * s`. -/
def ceilSqrt (n : Nat) : Nat := ceilSqrtFrom n n 0

/-- The loop bound `ceil(sqrt(n_tiles) + 1)` of `best_grid_size`.  For a
negative argument `sqrt` yields NaN, and so does the whole expression: `none`.
Otherwise the bound is `ceil(sqrt(n_tiles)) + 1`. -/
def loopBound (n_tiles : Int) : Option Nat :=
  if n_tiles < 0 then none else some (ceilSqrt n_tiles.toNat + 1)

/-- The body of the `for` loop of `best_grid_size`, run `k` more times from
counter value `n`; the state is `(grid_x, grid_y)`.
```
if (n_tiles % n == 0) { grid_y = n; grid_x = n_tiles / n; }
```
-/
def gridLoop (n_tiles : Int) : Nat → Int → Int × Int → Int × Int
  | 0, _, g => g
  | k + 1, n, g =>
      gridLoop n_tiles k (n + 1)
        (if Int.tmod n_tiles n = 0 then (Int.tdiv n_tiles n, n) else g)

/-- Embedding of `ofApp::best_grid_size`; the result is `(grid_x, grid_y)`.
```
int grid_x = 0; int grid_y = 0;
for (int n = 1; n < ceil(sqrt(n_tiles) + 1); n++) { ... }
return std::tuple<int, int>(grid_x, grid_y);
```
The counter runs over `1, ..., bound - 1`; a comparison with NaN is false, so a
NaN bound gives no iteration. -/
def best_grid_size (n_tiles : Int) : Int × Int :=
  match loopBound n_tiles with
  | none => (0, 0)
  | some bound => gridLoop n_tiles (bound - 1) 1 (0, 0)

/-- The call of `best_grid_size` as a computation that either hands back a pair
or raises an error.  The source function has no `throw`, no exit and no error
return: every call hands back the tuple. -/
def best_grid_size_call (n_tiles : Int) : Except String (Int × Int) :=
  Except.ok (best_grid_size n_tiles)

/-! ## Corpus discovery -/

/-- An `ofFile` as far as the program looks at it: `getAbsolutePath()`,
`getFileName()` and `getExtension()` (the extension without the dot, case
preserved). -/
structure OfFile where
  absolutePath : String
  fileName : String
  extension : String
deriving DecidableEq, Repr

/-- A directory tree.  The listing of a directory holds its entries in the order
in which `listDir()` followed by `getFile(0), getFile(1), ...` yields them. -/
inductive Entry where
  | file (f : OfFile)
  | directory (f : OfFile) (listing : List Entry)

/-- The table `allowed_ext`. -/
def allowed_ext : List String := ["jpg", "png", "gif", "jpeg"]

mutual
/-- Embedding of `ofApp::scan_dir_imgs`, run on the listing that `dir.listDir()`
yields, with the member `imageFiles` threaded through as the accumulator.  The
`for` loop visits the entries in listing order. -/
def scan_dir_imgs : List Entry → List OfFile → List OfFile
  | [], imageFiles => imageFiles
  | e :: rest, imageFiles => scan_dir_imgs rest (scan_entry e imageFiles)
/-- One iteration of the loop of `scan_dir_imgs`.  For a directory the source
builds `new_dir`, lists and sorts that copy, and calls `scan_dir_imgs(new_dir)`,
which starts with its own `dir.listDir()`: the callee walks the listing of the
sub-directory.  Any other entry is pushed back when `std::find` locates its
extension in `allowed_ext`. -/
def scan_entry : Entry → List OfFile → List OfFile
  | Entry.directory _ listing, imageFiles => scan_dir_imgs listing imageFiles
  | Entry.file f, imageFiles =>
      if f.extension ∈ allowed_ext then imageFiles ++ [f] else imageFiles
end

mutual
/-- Specification side of the scanner: every non-directory entry of a listing,
at any depth, once, in depth-first listing order. -/
def filesDepthFirst : List Entry → List OfFile
  | [] => []
  | e :: rest => entryFiles e ++ filesDepthFirst rest
/-- Specification side of the scanner: the non-directory entries below (or at)
one entry. -/
def entryFiles : Entry → List OfFile
  | Entry.directory _ listing => filesDepthFirst listing
  | Entry.file f => [f]
end

/-! ## Metadata export -/

/-- An `ofVec2f`, with exact rational coordinates. -/
structure OfVec2f where
  x : ℚ
  y : ℚ
deriving DecidableEq

/-- The C function `round`: nearest integer, halfway cases away from zero. -/
def cround (q : ℚ) : Int :=
  if 0 ≤ q then Rat.floor (q + 1 / 2) else - Rat.floor (-q + 1 / 2)

/-- One element of the JSON array written by `save_tsne_to_json`. -/
structure JsonImage where
  filename : String
  tsne_pos : ℚ × ℚ
  grid_pos : Int × Int
deriving DecidableEq

/-- The body of the loop of `save_tsne_to_json` for index `i`; `none` when one of
the element accesses is out of range.
```
image["filename"] = image_files[i].getFileName();
tsne_pos["x"] = tsne_points[i].x;  tsne_pos["y"] = tsne_points[i].y;
grid_pos["x"] = round(solved_grid[i].x * nx);
grid_pos["y"] = round(solved_grid[i].y * ny);
```
-/
def json_image (image_files : List OfFile) (nx ny : Int)
    (tsne_points solved_grid : List OfVec2f) (i : Nat) : Option JsonImage :=
  match image_files[i]?, tsne_points[i]?, solved_grid[i]? with
  | some f, some t, some s =>
      some { filename := f.fileName
             tsne_pos := (t.x, t.y)
             grid_pos := (cround (s.x * nx), cround (s.y * ny)) }
  | _, _, _ => none

/-- Embedding of `save_tsne_to_json`: the array `images` that is written to the
output file, one element per index `i < solved_grid.size()`, in index order. -/
def save_tsne_to_json (image_files : List OfFile) (nx ny : Int)
    (tsne_points solved_grid : List OfVec2f) : Option (List JsonImage) :=
  (List.range solved_grid.length).mapM
    (json_image image_files nx ny tsne_points solved_grid)

/-! ## Orchestration -/

/-- The settings fixed at the top of `ofApp::setup`. -/
structure Settings where
  n_images : Int
  displayW : Int
  displayH : Int

/-- The values the source assigns: `n_images = 300`, `displayW = displayH = 100`. -/
def sourceSettings : Settings := { n_images := 300, displayW := 100, displayH := 100 }

/-- Modelled from the spec: the target grid point of cell `(i, j)` in a grid of
`columns` by `rows` cells, normalised to the unit square:
`(i / (columns - 1), j / (rows - 1))`, with a single column or row mapped to
`0`.  The function `makeGrid` that builds these points belongs to the
ofxAssignment addon and is not part of the sources. -/
def gridPoint (columns rows i j : Int) : OfVec2f :=
  { x := if columns = 1 then 0 else (i : ℚ) / ((columns : ℚ) - 1)
    y := if rows = 1 then 0 else (j : ℚ) / ((rows : ℚ) - 1) }

/-- Modelled from the spec: the target grid point set built by `makeGrid(nx, ny)`
of the ofxAssignment addon, which is not part of the sources: one point per
cell, row after row. -/
def makeGrid (nx ny : Int) : List OfVec2f :=
  (List.range ny.toNat).flatMap fun j =>
    (List.range nx.toNat).map fun i => gridPoint nx ny i j

/-- What a call of the library function `ofExit()` does to the run: either the
process ends inside the call, or the call comes back and the statements after
it are executed. -/
inductive ExitCall where
  | endsProcess
  | returns
deriving DecidableEq

/-- Modelled from the spec: the call `ofExit()`, a function of openFrameworks
that is not part of the sources.  By the spec the run "is aborted before any
image is loaded" and the "process exits without producing output": the call
ends the process. -/
def ofExit : ExitCall := ExitCall.endsProcess

/-- Arithmetic without rounding: the result of every operation is kept as it
is. -/
def exactArithmetic (q : ℚ) : ℚ := q

/-- Rounding to the nearest integer, halfway cases to the even neighbour. -/
def roundHalfEven (q : ℚ) : Int :=
  if q - Rat.floor q < 1 / 2 then Rat.floor q
  else if 1 / 2 < q - Rat.floor q then Rat.floor q + 1
  else if Rat.floor q % 2 = 0 then Rat.floor q else Rat.floor q + 1

/-- Rounding to the `float` type (IEEE binary32): 24 significant bits, round to
nearest, ties to even, gradual underflow below `2 ^ (-126)`.  Overflow to
infinity is left out: the exponent is not bounded above. -/
def binary32 (q : ℚ) : ℚ :=
  if q = 0 then 0
  else
    (roundHalfEven (q / (2 : ℚ) ^ (max (Int.log 2 |q|) (-126) - 23)) : ℚ) *
      (2 : ℚ) ^ (max (Int.log 2 |q|) (-126) - 23)

/-- What `setup` takes from outside the repository. -/
structure Collaborators where
  /-- Crop, resize, `ccv.encode` and `tsne.run` on the loaded images, converted
  to `tsnePoints`. -/
  tsnePoints : List OfFile → List OfVec2f
  /-- The function `makeGrid(nx, ny)`. -/
  makeGrid : Int → Int → List OfVec2f
  /-- The call `solver.match(tsnePoints, gridPoints, false)`. -/
  solverMatch : List OfVec2f → List OfVec2f → List OfVec2f
  /-- The behaviour of the call `ofExit()`. -/
  exitCall : ExitCall
  /-- The rounding of a real value to the type `float`: `binary32` on the
  machine, `exactArithmetic` for the computation in exact rationals. -/
  toFloat : ℚ → ℚ

/-- The position at which `setup` draws an image whose solved grid point is `p`.
The frame buffer was allocated with `nx * displayW` by `ny * displayH` pixels;
`getWidth()` and `getHeight()` hand these back as `float`.  Every operation is
a `float` operation: its result is rounded by `toFloat`.
```
float x = (fbo.getWidth() - displayW) * solvedGrid[i].x;
float y = (fbo.getHeight() - displayH) * solvedGrid[i].y;
```
-/
def pixel_origin (toFloat : ℚ → ℚ) (nx ny displayW displayH : Int) (p : OfVec2f) : ℚ × ℚ :=
  (toFloat (toFloat (toFloat ((nx * displayW : Int) : ℚ) - toFloat (displayW : ℚ)) * p.x),
   toFloat (toFloat (toFloat ((ny * displayH : Int) : ℚ) - toFloat (displayH : ℚ)) * p.y))

/-- One `images[i].draw(x, y, displayW, displayH)` into the frame buffer. -/
structure DrawCall where
  image : OfFile
  origin : ℚ × ℚ
  width : Int
  height : Int
deriving DecidableEq

/-- The composite image: the allocated frame buffer and the draw calls into it. -/
structure Composite where
  width : Int
  height : Int
  draws : List DrawCall
deriving DecidableEq

/-- The observable effects of a run of `setup`, in program order; `exit` is the
call of `ofExit()`. -/
inductive Event where
  | logError (message : String)
  | exit
  | loadImage (f : OfFile)
  | writeMetadata (images : List JsonImage)
  | saveComposite (c : Composite)
  | undefinedBehaviour
deriving DecidableEq

/-- The loading loop of `setup`, with `k` iterations left at index `i`: the
files loaded so far in order, and whether every access `imageFiles[i]` was in
range.  The loop stops at the first access out of range.
```
for (int i = 0; i < nx * ny; i++) { images.push_back(ofImage()); images.back().load(imageFiles[i]); }
```
-/
def load_loop (imageFiles : List OfFile) : Nat → Nat → List OfFile × Bool
  | 0, _ => ([], true)
  | k + 1, i =>
      match imageFiles[i]? with
      | none => ([], false)
      | some f => (f :: (load_loop imageFiles k (i + 1)).1, (load_loop imageFiles k (i + 1)).2)

/-- The loading loop of `setup` from its start: `nx * ny` iterations from
index `0`. -/
def load_images (imageFiles : List OfFile) (nx ny : Int) : List OfFile × Bool :=
  load_loop imageFiles (nx * ny).toNat 0

/-- The member `solvedGrid` after the assignment has been solved.
```
vector<ofVec2f> gridPoints = makeGrid(nx, ny);
solvedGrid = solver.match(tsnePoints, gridPoints, false);
```
-/
def solved_grid (c : Collaborators) (nx ny : Int) (images : List OfFile) : List OfVec2f :=
  c.solverMatch (c.tsnePoints images) (c.makeGrid nx ny)

/-- The drawing loop of `setup`, one draw call per index `i < solvedGrid.size()`;
`none` when `images[i]` is out of range. -/
def draw_calls (toFloat : ℚ → ℚ) (s : Settings) (nx ny : Int) (images : List OfFile)
    (solvedGrid : List OfVec2f) : Option (List DrawCall) :=
  (List.range solvedGrid.length).mapM fun i =>
    match images[i]?, solvedGrid[i]? with
    | some img, some p =>
        some { image := img
               origin := pixel_origin toFloat nx ny s.displayW s.displayH p
               width := s.displayW
               height := s.displayH }
    | _, _ => none

/-- The statements of `setup` from the loading loop on: load the first `nx * ny`
files, run the collaborators, write the metadata, allocate the frame buffer,
draw and save the composite. -/
def setup_pipeline (c : Collaborators) (s : Settings) (nx ny : Int)
    (imageFiles : List OfFile) : List Event :=
  let images := (load_images imageFiles nx ny).1
  images.map Event.loadImage ++
    if (load_images imageFiles nx ny).2 then
      match save_tsne_to_json imageFiles nx ny (c.tsnePoints images)
          (solved_grid c nx ny images) with
      | none => [Event.undefinedBehaviour]
      | some json =>
          Event.writeMetadata json ::
            match draw_calls c.toFloat s nx ny images (solved_grid c nx ny images) with
            | none => [Event.undefinedBehaviour]
            | some draws =>
                [Event.saveComposite
                  { width := nx * s.displayW, height := ny * s.displayH, draws := draws }]
    else [Event.undefinedBehaviour]

/-- Embedding of `ofApp::setup` up to the saving of the composite, as the list of
its observable effects.  `root` is the listing of `imageDir`; `imageFiles` is
empty when `setup` starts.
```
std::tie(nx, ny) = best_grid_size(n_images);
scan_dir_imgs(dir);
if (imageFiles.size() < nx * ny) { ofLog(OF_LOG_ERROR, ...); ofExit(); }
for (int i = 0; i < nx * ny; i++) { ... }
```
The `if` has no `else` and no `return`: the statements after it are executed
unless the process has ended inside `ofExit()`.  Both `nx` and `ny` are
non-negative, so the conversion of `nx * ny` to the unsigned type of `size()`
keeps its value. -/
def setup_with (c : Collaborators) (s : Settings) (root : List Entry) : List Event :=
  let nx := (best_grid_size s.n_images).1
  let ny := (best_grid_size s.n_images).2
  let imageFiles := scan_dir_imgs root []
  if (imageFiles.length : Int) < nx * ny then
    Event.logError
        ("There are less images in the directory than the grid size requested (nx*ny="
          ++ toString (nx * ny) ++ "). Exiting to save you trouble...") ::
      Event.exit ::
        match c.exitCall with
        | ExitCall.endsProcess => []
        | ExitCall.returns => setup_pipeline c s nx ny imageFiles
  else
    setup_pipeline c s nx ny imageFiles

/-- A picture with an accepted extension. -/
def sampleJpg : OfFile := ⟨"/pictures/a.jpg", "a.jpg", "jpg"⟩

/-- A file that is not a picture. -/
def sampleTxt : OfFile := ⟨"/pictures/notes.txt", "notes.txt", "txt"⟩

/-- A picture in a sub-directory. -/
def samplePng : OfFile := ⟨"/pictures/sub/c.png", "c.png", "png"⟩

/-- A picture whose extension is written in capitals. -/
def sampleUpper : OfFile := ⟨"/pictures/sub/d.JPG", "d.JPG", "JPG"⟩

/-- A picture listed after the sub-directory. -/
def sampleGif : OfFile := ⟨"/pictures/e.gif", "e.gif", "gif"⟩

/-- A small directory tree with one sub-directory. -/
def sampleTree : List Entry :=
  [Entry.file sampleJpg, Entry.file sampleTxt,
   Entry.directory ⟨"/pictures/sub", "sub", ""⟩ [Entry.file samplePng, Entry.file sampleUpper],
   Entry.file sampleGif]

/-- Settings that ask for two images. -/
def sampleSettings : Settings := { n_images := 2, displayW := 100, displayH := 100 }

/-- Stand-ins for the collaborators: every image is embedded at the origin, the
solver assigns the grid points in their order, `ofExit()` ends the process, and
the arithmetic is exact. -/
def stubCollaborators : Collaborators :=
  { tsnePoints := fun images => images.map fun _ => ⟨0, 0⟩
    makeGrid := makeGrid
    solverMatch := fun _ grid => grid
    exitCall := ofExit
    toFloat := exactArithmetic }

/-- The composite of two pictures side by side in a `2` by `1` grid. -/
def sampleComposite : Composite :=
  { width := 200
    height := 100
    draws := [{ image := sampleJpg, origin := (0, 0), width := 100, height := 100 },
              { image := samplePng, origin := (100, 0), width := 100, height := 100 }] }

/-! ## Facts about `ceilSqrt` -/

theorem ceilSqrtFrom_spec (n : Nat) : ∀ fuel s : Nat,
    (∀ t, t < s → t * t < n) → n ≤ (s + fuel) * (s + fuel) →
    n ≤ ceilSqrtFrom n fuel s * ceilSqrtFrom n fuel s ∧
      ∀ t, t < ceilSqrtFrom n fuel s → t * t < n := by
  intro fuel
  induction fuel with
  | zero =>
    intro s hlow hup
    exact ⟨by simpa [ceilSqrtFrom] using hup, by simpa [ceilSqrtFrom] using hlow⟩
  | succ k ih =>
    intro s hlow hup
    by_cases hs : n ≤ s * s
    · simp only [ceilSqrtFrom, if_pos hs]
      exact ⟨hs, hlow⟩
    · simp only [ceilSqrtFrom, if_neg hs]
      apply ih (s + 1)
      · intro t ht
        rcases Nat.lt_succ_iff_lt_or_eq.mp ht with h | h
        · exact hlow t h
        · subst h; omega
      · have : s + 1 + k = s + (k + 1) := by omega
        rw [this]; exact hup

theorem le_ceilSqrt_sq (n : Nat) : n ≤ ceilSqrt n * ceilSqrt n :=
  (ceilSqrtFrom_spec n n 0 (fun t ht => absurd ht (Nat.not_lt_zero t))
    (by simpa using Nat.le_mul_self n)).1

theorem sq_lt_of_lt_ceilSqrt (n t : Nat) (ht : t < ceilSqrt n) : t * t < n :=
  (ceilSqrtFrom_spec n n 0 (fun t ht => absurd ht (Nat.not_lt_zero t))
    (by simpa using Nat.le_mul_self n)).2 t ht

theorem ceilSqrt_le_of_le_sq (n s : Nat) (h : n ≤ s * s) : ceilSqrt n ≤ s := by
  by_contra hlt
  have := sq_lt_of_lt_ceilSqrt n s (Nat.lt_of_not_le hlt)
  omega

theorem ceilSqrt_pos (n : Nat) (hn : 0 < n) : 0 < ceilSqrt n := by
  rcases Nat.eq_zero_or_pos (ceilSqrt n) with h | h
  · have := le_ceilSqrt_sq n
    rw [h] at this
    omega
  · exact h

/-! ## The loop of `best_grid_size` -/

theorem gridLoop_spec (N : Nat) : ∀ (k n : Nat) (g : Int × Int), 0 < n →
    (gridLoop N k n g = g ∧ ∀ m, n ≤ m → m < n + k → ¬ m ∣ N) ∨
    (∃ d : Nat, n ≤ d ∧ d < n + k ∧ d ∣ N ∧
        gridLoop N k n g = (((N / d : Nat) : Int), (d : Int)) ∧
        ∀ m, d < m → m < n + k → ¬ m ∣ N) := by
  intro k
  induction k with
  | zero =>
    intro n g _
    left
    exact ⟨rfl, fun m h1 h2 => by omega⟩
  | succ k ih =>
    intro n g hn
    have hstep : gridLoop N (k + 1) n g =
        gridLoop N k ((n + 1 : Nat) : Int)
          (if N % n = 0 then (((N / n : Nat) : Int), (n : Int)) else g) := by
      have h1 : Int.tmod (N : Int) (n : Int) = ((N % n : Nat) : Int) := rfl
      have h2 : Int.tdiv (N : Int) (n : Int) = ((N / n : Nat) : Int) := rfl
      simp only [gridLoop, h1, h2, Nat.cast_add, Nat.cast_one]
      norm_cast
    rw [hstep]
    rcases ih (n + 1) (if N % n = 0 then (((N / n : Nat) : Int), (n : Int)) else g)
        (Nat.succ_pos n) with ⟨heq, hno⟩ | ⟨d, hd1, hd2, hd3, heq, hmax⟩
    · by_cases hdiv : N % n = 0
      · right
        refine ⟨n, le_refl n, by omega, Nat.dvd_of_mod_eq_zero hdiv, ?_, ?_⟩
        · rw [heq, if_pos hdiv]
        · intro m h1 h2
          exact hno m (by omega) (by omega)
      · left
        refine ⟨by rw [heq, if_neg hdiv], ?_⟩
        intro m h1 h2 hm
        rcases Nat.eq_or_lt_of_le h1 with h | h
        · subst h
          exact hdiv (Nat.mod_eq_zero_of_dvd hm)
        · exact hno m (by omega) (by omega) hm
    · right
      exact ⟨d, by omega, by omega, hd3, heq, fun m h1 h2 => hmax m h1 (by omega)⟩

/-- For a positive count the result is `(N / d, d)` for the largest divisor `d`
of `N` among `1, ..., ceilSqrt N`. -/
theorem best_grid_size_spec (N : Nat) (hN : 0 < N) :
    ∃ d : Nat, 0 < d ∧ d ≤ ceilSqrt N ∧ d ∣ N ∧
      best_grid_size (N : Int) = (((N / d : Nat) : Int), (d : Int)) ∧
      ∀ m, d < m → m ≤ ceilSqrt N → ¬ m ∣ N := by
  have hs := ceilSqrt_pos N hN
  have hb : best_grid_size (N : Int) = gridLoop N (ceilSqrt N) ((1 : Nat) : Int) (0, 0) := by
    have : ¬ ((N : Int) < 0) := by omega
    simp [best_grid_size, loopBound, this]
  rw [hb]
  rcases gridLoop_spec N (ceilSqrt N) 1 (0, 0) Nat.one_pos with
    ⟨_, hno⟩ | ⟨d, hd1, hd2, hd3, heq, hmax⟩
  · exact absurd (one_dvd N) (hno 1 (le_refl 1) (by omega))
  · exact ⟨d, by omega, by omega, hd3, heq, fun m h1 h2 => hmax m h1 (by omega)⟩

/-- The pair of `best_grid_size_spec` lies between the members of any factor
pair `a ≤ b` of `N`. -/
theorem factor_pair_between (N d a b : Nat) (hN : 0 < N) (hd0 : 0 < d)
    (hds : d ≤ ceilSqrt N) (hdN : d ∣ N)
    (hmax : ∀ m, d < m → m ≤ ceilSqrt N → ¬ m ∣ N)
    (hab : a * b = N) (hle : a ≤ b) :
    a ≤ d ∧ a ≤ N / d ∧ d ≤ b ∧ N / d ≤ b := by
  have hcd : N / d * d = N := Nat.div_mul_cancel hdN
  have ha0 : 0 < a := by
    rcases Nat.eq_zero_or_pos a with h | h
    · subst h; simp at hab; omega
    · exact h
  have haa : a * a ≤ N := by
    calc a * a ≤ a * b := Nat.mul_le_mul_left a hle
      _ = N := hab
  have hbb : N ≤ b * b := by
    calc N = a * b := hab.symm
      _ ≤ b * b := Nat.mul_le_mul_right b hle
  have has : a ≤ ceilSqrt N := by
    by_contra h
    have h1 := Nat.mul_self_lt_mul_self (Nat.lt_of_not_le h)
    have h2 := le_ceilSqrt_sq N
    omega
  have had : a ≤ d := by
    by_contra h
    exact hmax a (Nat.lt_of_not_le h) has ⟨b, hab.symm⟩
  have hsb : ceilSqrt N ≤ b := ceilSqrt_le_of_le_sq N b hbb
  have hdb : d ≤ b := le_trans hds hsb
  refine ⟨had, ?_, hdb, ?_⟩
  · by_contra h
    have h1 : N / d * d < a * d := Nat.mul_lt_mul_of_pos_right (Nat.lt_of_not_le h) hd0
    have h2 : a * d ≤ a * b := Nat.mul_le_mul_left a hdb
    omega
  · by_contra h
    have h1 : a * b < a * (N / d) := Nat.mul_lt_mul_of_pos_left (Nat.lt_of_not_le h) ha0
    have h2 : a * (N / d) ≤ d * (N / d) := Nat.mul_le_mul_right (N / d) had
    have h3 : d * (N / d) = N := by rw [Nat.mul_comm]; exact hcd
    omega

/-- When the rows exceed the columns, the rows are the columns plus one. -/
theorem rows_eq_succ_of_gt (N d c : Nat) (hds : d ≤ ceilSqrt N)
    (hcd : c * d = N) (hlt : c < d) : d = c + 1 := by
  have hd0 : 0 < d := by omega
  have hdd : N < d * d := by
    calc N = c * d := hcd.symm
      _ < d * d := Nat.mul_lt_mul_of_pos_right hlt hd0
  obtain ⟨t, rfl⟩ : ∃ t, d = t + 1 := ⟨d - 1, by omega⟩
  have ht : t * t < N := sq_lt_of_lt_ceilSqrt N t (by omega)
  by_contra hne
  have hc : c + 1 ≤ t := by omega
  have h1 : (c + 1) * t ≤ t * t := Nat.mul_le_mul_right t hc
  have h2 : c * (t + 1) = c * t + c := by rw [Nat.mul_add, Nat.mul_one]
  have h3 : (c + 1) * t = c * t + t := by rw [Nat.add_mul, Nat.one_mul]
  omega

/-- On a product of two consecutive numbers the rows exceed the columns. -/
theorem best_grid_size_consecutive (K : Nat) (hK : 0 < K) :
    best_grid_size ((K * (K + 1) : Nat) : Int) = ((K : Int), ((K + 1 : Nat) : Int)) := by
  have hN : 0 < K * (K + 1) := Nat.mul_pos hK (Nat.succ_pos K)
  obtain ⟨d, hd0, hds, hdN, heq, hmax⟩ := best_grid_size_spec (K * (K + 1)) hN
  have hs1 : ceilSqrt (K * (K + 1)) ≤ K + 1 :=
    ceilSqrt_le_of_le_sq _ _ (Nat.mul_le_mul_right (K + 1) (Nat.le_succ K))
  have hs2 : K < ceilSqrt (K * (K + 1)) := by
    by_contra h
    have h1 := Nat.mul_self_le_mul_self (Nat.le_of_not_lt h)
    have h2 := le_ceilSqrt_sq (K * (K + 1))
    have h3 : K * K < K * (K + 1) := Nat.mul_lt_mul_of_pos_left (Nat.lt_succ_self K) hK
    omega
  have hd : d = K + 1 := by
    by_contra hne
    exact hmax (K + 1) (by omega) (by omega) ⟨K, Nat.mul_comm K (K + 1)⟩
  subst hd
  rw [heq, Nat.mul_div_cancel K (Nat.succ_pos K)]

/-! ## Claims about `best_grid_size` -/

/-- C1: for every positive integer `n`, the pair `(columns, rows)` returned by
`best_grid_size n` satisfies `columns * rows = n`. -/
theorem best_grid_size_product (n : Int) (hn : 0 < n) :
    (best_grid_size n).1 * (best_grid_size n).2 = n := by
  obtain ⟨N, rfl⟩ := Int.eq_ofNat_of_zero_le (le_of_lt hn)
  obtain ⟨d, _, _, hdN, heq, _⟩ := best_grid_size_spec N (by omega)
  rw [heq]
  show ((N / d : Nat) : Int) * (d : Int) = (N : Int)
  exact_mod_cast Nat.div_mul_cancel hdN

/-- C1, at the item count of the source: `20 * 15 = 300`. -/
theorem best_grid_size_product_witness :
    (0 : Int) < 300 ∧ (best_grid_size 300).1 * (best_grid_size 300).2 = 300 :=
  ⟨by decide, best_grid_size_product 300 (by decide)⟩

/-- C2, as stated, fails at `n = 6`: the result is `(2, 3)`, with more rows than
columns. -/
theorem best_grid_size_rows_gt_columns_at_6 :
    best_grid_size 6 = (2, 3) ∧ ¬ ((best_grid_size 6).2 ≤ (best_grid_size 6).1) := by
  decide

/-- C2, amended: for every positive `n` the rows exceed the columns by at most
one; they exceed them exactly when `n` is a product `k * (k + 1)` of two
consecutive positive integers, and then the result is `(k, k + 1)`. -/
theorem best_grid_size_rows_le_columns_succ (n : Int) (hn : 0 < n) :
    (best_grid_size n).2 ≤ (best_grid_size n).1 + 1 ∧
    ((best_grid_size n).2 ≤ (best_grid_size n).1 ↔
      ¬ ∃ k : Int, 0 < k ∧ n = k * (k + 1)) ∧
    (∀ k : Int, 0 < k → n = k * (k + 1) → best_grid_size n = (k, k + 1)) := by
  obtain ⟨N, rfl⟩ := Int.eq_ofNat_of_zero_le (le_of_lt hn)
  have hN : 0 < N := by omega
  have hcons : ∀ k : Int, 0 < k → (N : Int) = k * (k + 1) →
      best_grid_size (N : Int) = (k, k + 1) := by
    intro k hk hnk
    obtain ⟨K, rfl⟩ := Int.eq_ofNat_of_zero_le (le_of_lt hk)
    have hNK : N = K * (K + 1) := by exact_mod_cast hnk
    subst hNK
    have := best_grid_size_consecutive K (by omega)
    rw [this]
    push_cast
    rfl
  obtain ⟨d, hd0, hds, hdN, heq, hmax⟩ := best_grid_size_spec N hN
  have hcd : N / d * d = N := Nat.div_mul_cancel hdN
  refine ⟨?_, ⟨?_, ?_⟩, hcons⟩
  · rw [heq]
    show (d : Int) ≤ ((N / d : Nat) : Int) + 1
    by_cases hlt : N / d < d
    · have := rows_eq_succ_of_gt N d (N / d) hds hcd hlt
      omega
    · omega
  · intro hle ⟨k, hk, hnk⟩
    rw [hcons k hk hnk] at hle
    simp at hle
  · intro hno
    rw [heq]
    show (d : Int) ≤ ((N / d : Nat) : Int)
    by_contra hgt
    have hlt : N / d < d := by omega
    have hsucc := rows_eq_succ_of_gt N d (N / d) hds hcd hlt
    have hc0 : 0 < N / d := by
      rcases Nat.eq_zero_or_pos (N / d) with h | h
      · rw [h] at hcd; omega
      · exact h
    apply hno
    refine ⟨((N / d : Nat) : Int), by exact_mod_cast hc0, ?_⟩
    have : N = N / d * (N / d + 1) := by
      rw [← hsucc]
      exact hcd.symm
    exact_mod_cast this

/-- C2, amended, at `n = 12 = 3 * 4`: rows `4`, columns `3`. -/
theorem best_grid_size_rows_le_columns_succ_witness :
    (0 : Int) < 12 ∧
    ((best_grid_size 12).2 ≤ (best_grid_size 12).1 + 1 ∧
    ((best_grid_size 12).2 ≤ (best_grid_size 12).1 ↔
      ¬ ∃ k : Int, 0 < k ∧ (12 : Int) = k * (k + 1)) ∧
    (∀ k : Int, 0 < k → (12 : Int) = k * (k + 1) → best_grid_size 12 = (k, k + 1))) :=
  ⟨by decide, best_grid_size_rows_le_columns_succ 12 (by decide)⟩

/-- C3: for every positive integer `n`, the returned pair is a pair of positive
factors of `n`, and no pair of positive integers `(a, b)` with `a * b = n` has a
smaller `|a - b|`. -/
theorem best_grid_size_closest_to_square (n : Int) (hn : 0 < n) :
    0 < (best_grid_size n).1 ∧ 0 < (best_grid_size n).2 ∧
    (best_grid_size n).1 * (best_grid_size n).2 = n ∧
    ∀ a b : Int, 0 < a → 0 < b → a * b = n →
      |(best_grid_size n).1 - (best_grid_size n).2| ≤ |a - b| := by
  obtain ⟨N, rfl⟩ := Int.eq_ofNat_of_zero_le (le_of_lt hn)
  have hN : 0 < N := by omega
  obtain ⟨d, hd0, hds, hdN, heq, hmax⟩ := best_grid_size_spec N hN
  have hcd : N / d * d = N := Nat.div_mul_cancel hdN
  have hc0 : 0 < N / d := by
    rcases Nat.eq_zero_or_pos (N / d) with h | h
    · rw [h] at hcd; omega
    · exact h
  rw [heq]
  refine ⟨?_, ?_, ?_, ?_⟩
  · show (0 : Int) < ((N / d : Nat) : Int)
    exact_mod_cast hc0
  · show (0 : Int) < (d : Int)
    exact_mod_cast hd0
  · show ((N / d : Nat) : Int) * (d : Int) = (N : Int)
    exact_mod_cast hcd
  intro a b ha hb hab
  obtain ⟨A, rfl⟩ := Int.eq_ofNat_of_zero_le (le_of_lt ha)
  obtain ⟨B, rfl⟩ := Int.eq_ofNat_of_zero_le (le_of_lt hb)
  have hAB : A * B = N := by exact_mod_cast hab
  show |((N / d : Nat) : Int) - (d : Int)| ≤ |(A : Int) - (B : Int)|
  have h1 := le_abs_self ((A : Int) - (B : Int))
  have h2 := neg_le_abs ((A : Int) - (B : Int))
  rw [abs_le]
  rcases le_total A B with hle | hle
  · obtain ⟨i1, i2, i3, i4⟩ := factor_pair_between N d A B hN hd0 hds hdN hmax hAB hle
    constructor <;> omega
  · obtain ⟨i1, i2, i3, i4⟩ :=
      factor_pair_between N d B A hN hd0 hds hdN hmax (by rw [Nat.mul_comm]; exact hAB) hle
    constructor <;> omega

/-- C3, at `n = 12`: the result `(3, 4)` is as close to a square as a factor pair
of `12` can be. -/
theorem best_grid_size_closest_to_square_witness :
    (0 : Int) < 12 ∧
    (0 < (best_grid_size 12).1 ∧ 0 < (best_grid_size 12).2 ∧
    (best_grid_size 12).1 * (best_grid_size 12).2 = 12 ∧
    ∀ a b : Int, 0 < a → 0 < b → a * b = 12 →
      |(best_grid_size 12).1 - (best_grid_size 12).2| ≤ |a - b|) :=
  ⟨by decide, best_grid_size_closest_to_square 12 (by decide)⟩

/-- C4, as stated, fails at `n = 12`: the result is `(3, 4)` and not `(4, 3)`. -/
theorem best_grid_size_12_ne :
    best_grid_size 12 = (3, 4) ∧ best_grid_size 12 ≠ (4, 3) := by
  decide

/-- C4, amended: `best_grid_size` returns `(3, 4)` for `12`, `(13, 1)` for `13`
and `(20, 15)` for `300`, the item count that `setup` uses. -/
theorem best_grid_size_examples :
    best_grid_size 12 = (3, 4) ∧ best_grid_size 13 = (13, 1) ∧
    best_grid_size 300 = (20, 15) ∧ sourceSettings.n_images = 300 := by
  decide

/-- C5, as stated, fails at `n = 0`: the call hands back the pair `(0, 0)` and
raises no error. -/
theorem best_grid_size_call_zero :
    best_grid_size_call 0 = Except.ok (0, 0) ∧
    ¬ ∃ e, best_grid_size_call 0 = Except.error e := by
  refine ⟨congrArg Except.ok (by decide), ?_⟩
  rintro ⟨e, he⟩
  simp [best_grid_size_call] at he

/-- C5, amended: for every integer `n ≤ 0` the call of `best_grid_size` raises no
error and hands back the pair `(0, 0)`. -/
theorem best_grid_size_nonpositive (n : Int) (hn : n ≤ 0) :
    best_grid_size_call n = Except.ok (0, 0) ∧ best_grid_size n = (0, 0) := by
  have h : best_grid_size n = (0, 0) := by
    rcases lt_or_eq_of_le hn with hlt | rfl
    · simp [best_grid_size, loopBound, hlt]
    · decide
  exact ⟨by rw [best_grid_size_call, h], h⟩

/-- C5, amended, at `n = -7`. -/
theorem best_grid_size_nonpositive_witness :
    (-7 : Int) ≤ 0 ∧
    (best_grid_size_call (-7) = Except.ok (0, 0) ∧ best_grid_size (-7) = (0, 0)) :=
  ⟨by decide, best_grid_size_nonpositive (-7) (by decide)⟩

/-- C10, as stated, fails at the prime `2`: the result is `(1, 2)` and not
`(2, 1)`. -/
theorem best_grid_size_prime_two :
    Nat.Prime 2 ∧ best_grid_size 2 = (1, 2) ∧ best_grid_size 2 ≠ (2, 1) :=
  ⟨Nat.prime_two, by decide, by decide⟩

/-- C10, amended: for every prime `p` other than `2`, `best_grid_size p` returns
`(p, 1)`. -/
theorem best_grid_size_odd_prime (p : Nat) (hp : p.Prime) (h2 : p ≠ 2) :
    best_grid_size (p : Int) = ((p : Int), 1) := by
  have hp2 := hp.two_le
  have hp3 : 3 ≤ p := by omega
  obtain ⟨d, hd0, hds, hdN, heq, _⟩ := best_grid_size_spec p (by omega)
  have hs : ceilSqrt p ≤ p - 1 := by
    apply ceilSqrt_le_of_le_sq
    have h1 : 2 * (p - 1) ≤ (p - 1) * (p - 1) := Nat.mul_le_mul_right (p - 1) (by omega)
    omega
  have hd1 : d = 1 := by
    rcases hp.eq_one_or_self_of_dvd d hdN with h | h
    · exact h
    · omega
  subst hd1
  rw [heq, Nat.div_one]
  rfl

/-- C10, amended, at the prime `13`. -/
theorem best_grid_size_odd_prime_witness :
    Nat.Prime 13 ∧ 13 ≠ 2 ∧ best_grid_size ((13 : Nat) : Int) = (((13 : Nat) : Int), 1) :=
  ⟨by norm_num, by decide, best_grid_size_odd_prime 13 (by norm_num) (by decide)⟩

/-! ## Claims about `scan_dir_imgs` -/

mutual
theorem scan_dir_imgs_append : ∀ (listing : List Entry) (imageFiles : List OfFile),
    scan_dir_imgs listing imageFiles =
      imageFiles ++ (filesDepthFirst listing).filter (fun f => f.extension ∈ allowed_ext)
  | [], imageFiles => by simp [scan_dir_imgs, filesDepthFirst]
  | e :: rest, imageFiles => by
      rw [scan_dir_imgs, scan_entry_append e imageFiles, scan_dir_imgs_append rest,
        filesDepthFirst, List.filter_append, List.append_assoc]
theorem scan_entry_append : ∀ (e : Entry) (imageFiles : List OfFile),
    scan_entry e imageFiles =
      imageFiles ++ (entryFiles e).filter (fun f => f.extension ∈ allowed_ext)
  | Entry.directory _ listing, imageFiles => by
      rw [scan_entry, scan_dir_imgs_append listing imageFiles, entryFiles]
  | Entry.file f, imageFiles => by
      by_cases h : f.extension ∈ allowed_ext
      · simp [scan_entry, entryFiles, h]
      · simp [scan_entry, entryFiles, h]
end

/-- C9: for every directory tree, `scan_dir_imgs` appends to `imageFiles` exactly
the non-directory entries at any depth whose extension is `jpg`, `png`, `gif` or
`jpeg` (compared as strings), in depth-first listing order; each such entry is
appended as often as it occurs in the tree, and no entry with another extension
is appended. -/
theorem scan_dir_imgs_discovers (root : List Entry) (imageFiles : List OfFile) :
    (∃ appended : List OfFile,
      scan_dir_imgs root imageFiles = imageFiles ++ appended ∧
      appended = (filesDepthFirst root).filter
        (fun f => f.extension = "jpg" ∨ f.extension = "png" ∨
          f.extension = "gif" ∨ f.extension = "jpeg") ∧
      (∀ f, f ∈ appended →
        f.extension = "jpg" ∨ f.extension = "png" ∨
          f.extension = "gif" ∨ f.extension = "jpeg") ∧
      (∀ f, (f.extension = "jpg" ∨ f.extension = "png" ∨
          f.extension = "gif" ∨ f.extension = "jpeg") →
        appended.count f = (filesDepthFirst root).count f) ∧
      (∀ f, ¬ (f.extension = "jpg" ∨ f.extension = "png" ∨
          f.extension = "gif" ∨ f.extension = "jpeg") → appended.count f = 0)) := by
  have hfilter : (filesDepthFirst root).filter (fun f => f.extension ∈ allowed_ext) =
      (filesDepthFirst root).filter
        (fun f => f.extension = "jpg" ∨ f.extension = "png" ∨
          f.extension = "gif" ∨ f.extension = "jpeg") := by
    apply List.filter_congr
    intro f _
    simp [allowed_ext]
  refine ⟨_, ?_, rfl, ?_, ?_, ?_⟩
  · rw [scan_dir_imgs_append, hfilter]
  · intro f hf
    simpa using (List.mem_filter.mp hf).2
  · intro f hf
    exact List.count_filter (by simpa using hf)
  · intro f hf
    rw [List.count_eq_zero]
    intro hmem
    exact hf (by simpa using (List.mem_filter.mp hmem).2)

/-- The scan of the sample tree: the text file and the picture with the
extension in capitals are left out, the picture of the sub-directory comes at
the place of the sub-directory. -/
theorem scan_dir_imgs_sampleTree :
    scan_dir_imgs sampleTree [] = [sampleJpg, samplePng, sampleGif] := by
  decide

/-! ## Claims about `setup` -/

theorem load_loop_eq (l : List OfFile) : ∀ k i : Nat, i ≤ l.length →
    load_loop l k i = ((l.drop i).take k, decide (i + k ≤ l.length)) := by
  intro k
  induction k with
  | zero =>
    intro i h
    simp [load_loop, h]
  | succ k ih =>
    intro i h
    rcases Nat.lt_or_ge i l.length with hlt | hge
    · have hget : l[i]? = some l[i] := List.getElem?_eq_getElem hlt
      have hdrop : l.drop i = l[i] :: l.drop (i + 1) := List.drop_eq_getElem_cons hlt
      simp only [load_loop, hget, ih (i + 1) hlt, hdrop, List.take_succ_cons]
      have : (i + 1 + k ≤ l.length) = (i + (k + 1) ≤ l.length) := by
        rw [Nat.add_right_comm, Nat.add_assoc]
      simp only [this]
    · have hnone : l[i]? = none := List.getElem?_eq_none hge
      have hd : l.drop i = [] := List.drop_eq_nil_of_le hge
      have hf : ¬ (i + (k + 1) ≤ l.length) := by omega
      simp [load_loop, hnone, hd, hf]

theorem load_images_eq (imageFiles : List OfFile) (nx ny : Int) :
    load_images imageFiles nx ny =
      (imageFiles.take (nx * ny).toNat, decide ((nx * ny).toNat ≤ imageFiles.length)) := by
  rw [load_images, load_loop_eq imageFiles _ 0 (Nat.zero_le _)]
  simp

/-- The case that C8 leaves to `ofExit()`: were the call to come back, the run
would go on after the error message, load every file found and then read
`imageFiles` out of range. -/
theorem setup_with_exit_returns (c : Collaborators) (s : Settings) (root : List Entry)
    (h : ((scan_dir_imgs root []).length : Int) <
        (best_grid_size s.n_images).1 * (best_grid_size s.n_images).2)
    (hexit : c.exitCall = ExitCall.returns) :
    ∃ message, setup_with c s root =
      Event.logError message :: Event.exit ::
        ((scan_dir_imgs root []).map Event.loadImage ++ [Event.undefinedBehaviour]) := by
  refine ⟨"There are less images in the directory than the grid size requested (nx*ny="
      ++ toString ((best_grid_size s.n_images).1 * (best_grid_size s.n_images).2)
      ++ "). Exiting to save you trouble...", ?_⟩
  simp only [setup_with]
  rw [if_pos h, hexit]
  have hlen : ¬ ((best_grid_size s.n_images).1 * (best_grid_size s.n_images).2).toNat ≤
      (scan_dir_imgs root []).length := by omega
  have htake : (scan_dir_imgs root []).take
      ((best_grid_size s.n_images).1 * (best_grid_size s.n_images).2).toNat =
        scan_dir_imgs root [] := List.take_of_length_le (by omega)
  simp only [setup_pipeline, load_images_eq, htake, hlen, decide_False]
  rfl

/-! ## The composite drawn by `setup` -/

theorem mapM_range_index {α : Type} (f : Nat → Option α) : ∀ (n : Nat) (l : List α),
    (List.range n).mapM f = some l → l.length = n ∧ ∀ k, k < n → l[k]? = f k := by
  intro n
  induction n with
  | zero =>
    intro l h
    have : l = [] := by
      have h0 : (List.range 0).mapM f = some [] := rfl
      rw [h0] at h
      exact (Option.some.inj h).symm
    subst this
    exact ⟨rfl, fun k hk => absurd hk (Nat.not_lt_zero k)⟩
  | succ n ih =>
    intro l h
    rw [List.range_succ, List.mapM_append, List.mapM_cons, List.mapM_nil] at h
    cases h1 : List.mapM f (List.range n) with
    | none => rw [h1] at h; cases h
    | some l1 =>
      cases h2 : f n with
      | none => rw [h1, h2] at h; cases h
      | some a =>
        rw [h1, h2] at h
        have hl : l = l1 ++ [a] := (Option.some.inj h).symm
        obtain ⟨hlen, hget⟩ := ih l1 h1
        subst hl
        refine ⟨by simp [hlen], ?_⟩
        intro k hk
        rcases Nat.lt_succ_iff_lt_or_eq.mp hk with hlt | heq
        · rw [List.getElem?_append_left (by omega)]
          exact hget k hlt
        · subst heq
          rw [h2, List.getElem?_append_right (by omega)]
          simp [hlen]

/-- The draw call of index `k`: the image `images[k]`, at the pixel origin of the
solved grid point of index `k`, in the thumbnail size. -/
theorem draw_calls_index (toFloat : ℚ → ℚ) (s : Settings) (nx ny : Int)
    (images : List OfFile) (solvedGrid : List OfVec2f) (draws : List DrawCall)
    (h : draw_calls toFloat s nx ny images solvedGrid = some draws)
    (k : Nat) (p : OfVec2f) (hp : solvedGrid[k]? = some p) :
    ∃ img, images[k]? = some img ∧
      draws[k]? = some { image := img
                         origin := pixel_origin toFloat nx ny s.displayW s.displayH p
                         width := s.displayW
                         height := s.displayH } := by
  obtain ⟨hlen, hget⟩ := mapM_range_index _ _ _ h
  have hk : k < solvedGrid.length := by
    by_contra hge
    rw [List.getElem?_eq_none (Nat.le_of_not_lt hge)] at hp
    cases hp
  have hdk := hget k hk
  have hsome : draws[k]? = some draws[k] := List.getElem?_eq_getElem (by omega)
  rw [hp] at hdk
  cases himg : images[k]? with
  | none =>
    rw [himg, hsome] at hdk
    cases hdk
  | some img =>
    rw [himg] at hdk
    exact ⟨img, rfl, hdk⟩

/-- A composite saved by the statements of `setup` is the frame buffer of
`nx * displayW` by `ny * displayH` pixels with the draw calls of the drawing
loop. -/
theorem saveComposite_mem_setup_pipeline (c : Collaborators) (s : Settings) (nx ny : Int)
    (imageFiles : List OfFile) (comp : Composite)
    (h : Event.saveComposite comp ∈ setup_pipeline c s nx ny imageFiles) :
    ∃ draws,
      draw_calls c.toFloat s nx ny (load_images imageFiles nx ny).1
        (solved_grid c nx ny (load_images imageFiles nx ny).1) = some draws ∧
      comp = { width := nx * s.displayW, height := ny * s.displayH, draws := draws } := by
  unfold setup_pipeline at h
  rcases List.mem_append.mp h with h1 | h2
  · simp at h1
  · split at h2
    · split at h2
      · simp at h2
      · rcases List.mem_cons.mp h2 with h3 | h3
        · cases h3
        · split at h3
          · simp at h3
          · rename_i draws hdraws
            simp only [List.mem_singleton, Event.saveComposite.injEq] at h3
            exact ⟨draws, hdraws, h3⟩
    · simp at h2

/-- In exact arithmetic the pixel origin of the normalised grid point of cell
`(i, j)` is `(i * tw, j * th)`. -/
theorem pixel_origin_exact (columns rows tw th i j : Int)
    (hi0 : 0 ≤ i) (hi : i < columns) (hj0 : 0 ≤ j) (hj : j < rows) :
    pixel_origin exactArithmetic columns rows tw th (gridPoint columns rows i j) =
      (((i * tw : Int) : ℚ), ((j * th : Int) : ℚ)) := by
  have key : ∀ (n t k : Int), 0 ≤ k → k < n →
      (((n * t : Int) : ℚ) - t) * (if n = 1 then 0 else (k : ℚ) / ((n : ℚ) - 1)) =
        ((k * t : Int) : ℚ) := by
    intro n t k hk0 hk
    by_cases h1 : n = 1
    · have : k = 0 := by omega
      subst this
      simp [h1]
    · rw [if_neg h1]
      have hne : ((n : ℚ) - 1) ≠ 0 := by
        intro h
        apply h1
        have : (n : ℚ) = 1 := by linarith
        exact_mod_cast this
      push_cast
      field_simp
      ring
  simp only [pixel_origin, exactArithmetic, gridPoint]
  rw [key columns tw i hi0 hi, key rows th j hj0 hj]

/-- C7: let `setup` save a composite for a `columns` by `rows` grid, computing in
exact rational arithmetic, and let the solved position of record `k` be the
normalised grid point of cell `(i, j)`.  Then the composite has `columns * tw` by
`rows * th` pixels and record `k` is drawn, as image `imageFiles[k]` in the
thumbnail size, at the origin `(i * tw, j * th)`.  Hence, for a positive
thumbnail size, its rectangle lies inside the composite, and a record of another
cell is drawn at another origin. -/
theorem setup_draws_at_cell_origin (c : Collaborators) (s : Settings) (columns rows : Int)
    (imageFiles : List OfFile) (comp : Composite)
    (hexact : c.toFloat = exactArithmetic)
    (hrun : Event.saveComposite comp ∈ setup_pipeline c s columns rows imageFiles)
    (k : Nat) (i j : Int) (hi0 : 0 ≤ i) (hi : i < columns) (hj0 : 0 ≤ j) (hj : j < rows)
    (hcell : (solved_grid c columns rows (load_images imageFiles columns rows).1)[k]? =
      some (gridPoint columns rows i j)) :
    comp.width = columns * s.displayW ∧ comp.height = rows * s.displayH ∧
    ∃ d : DrawCall, comp.draws[k]? = some d ∧ imageFiles[k]? = some d.image ∧
      d.width = s.displayW ∧ d.height = s.displayH ∧
      d.origin = (((i * s.displayW : Int) : ℚ), ((j * s.displayH : Int) : ℚ)) ∧
      (0 < s.displayW → 0 < s.displayH →
        (0 ≤ d.origin.1 ∧ d.origin.1 + (d.width : ℚ) ≤ (comp.width : ℚ) ∧
          0 ≤ d.origin.2 ∧ d.origin.2 + (d.height : ℚ) ≤ (comp.height : ℚ)) ∧
        ∀ (k2 : Nat) (i2 j2 : Int) (d2 : DrawCall),
          0 ≤ i2 → i2 < columns → 0 ≤ j2 → j2 < rows →
          (solved_grid c columns rows (load_images imageFiles columns rows).1)[k2]? =
            some (gridPoint columns rows i2 j2) →
          comp.draws[k2]? = some d2 → (i2, j2) ≠ (i, j) → d2.origin ≠ d.origin) := by
  obtain ⟨draws, hdraws, hcomp⟩ :=
    saveComposite_mem_setup_pipeline c s columns rows imageFiles comp hrun
  rw [hexact] at hdraws
  subst hcomp
  obtain ⟨img, himg, hdk⟩ := draw_calls_index _ s columns rows _ _ draws hdraws k _ hcell
  rw [pixel_origin_exact columns rows s.displayW s.displayH i j hi0 hi hj0 hj] at hdk
  have hfile : imageFiles[k]? = some img := by
    rw [load_images_eq] at himg
    have hk : k < (imageFiles.take (columns * rows).toNat).length := by
      by_contra hge
      rw [List.getElem?_eq_none (Nat.le_of_not_lt hge)] at himg
      cases himg
    rw [List.length_take] at hk
    rw [← himg, List.getElem?_take, if_pos (by omega)]
  refine ⟨rfl, rfl, _, hdk, hfile, rfl, rfl, rfl, ?_⟩
  intro htw hth
  constructor
  · have e1 : 0 ≤ i * s.displayW := Int.mul_nonneg hi0 (le_of_lt htw)
    have e2 : i * s.displayW + s.displayW ≤ columns * s.displayW := by nlinarith
    have e3 : 0 ≤ j * s.displayH := Int.mul_nonneg hj0 (le_of_lt hth)
    have e4 : j * s.displayH + s.displayH ≤ rows * s.displayH := by nlinarith
    dsimp only
    refine ⟨by exact_mod_cast e1, by exact_mod_cast e2, by exact_mod_cast e3,
      by exact_mod_cast e4⟩
  · intro k2 i2 j2 d2 h1 h2 h3 h4 hcell2 hd2 hne heq
    obtain ⟨img2, _, hdk2⟩ := draw_calls_index _ s columns rows _ _ draws hdraws k2 _ hcell2
    rw [pixel_origin_exact columns rows s.displayW s.displayH i2 j2 h1 h2 h3 h4] at hdk2
    dsimp only at hd2
    rw [hdk2] at hd2
    have hd2' := (Option.some.inj hd2).symm
    subst hd2'
    dsimp only at heq
    have hx : i2 * s.displayW = i * s.displayW := by exact_mod_cast (Prod.mk.inj heq).1
    have hy : j2 * s.displayH = j * s.displayH := by exact_mod_cast (Prod.mk.inj heq).2
    have hi2 : i2 = i := Int.eq_of_mul_eq_mul_right (ne_of_gt htw) hx
    have hj2 : j2 = j := Int.eq_of_mul_eq_mul_right (ne_of_gt hth) hy
    exact hne (by rw [hi2, hj2])

/-- The statements of `setup` on two pictures and the `2` by `1` grid, with the
stand-in collaborators. -/
theorem setup_pipeline_sample :
    setup_pipeline stubCollaborators sampleSettings 2 1 [sampleJpg, samplePng] =
      [Event.loadImage sampleJpg, Event.loadImage samplePng,
       Event.writeMetadata
         [{ filename := "a.jpg", tsne_pos := (0, 0), grid_pos := (0, 0) },
          { filename := "c.png", tsne_pos := (0, 0), grid_pos := (2, 0) }],
       Event.saveComposite sampleComposite] := by
  have hload : load_images [sampleJpg, samplePng] 2 1 = ([sampleJpg, samplePng], true) := by
    decide
  have hgrid : solved_grid stubCollaborators 2 1 [sampleJpg, samplePng] =
      [gridPoint 2 1 0 0, gridPoint 2 1 1 0] := rfl
  have hr : List.range 2 = [0, 1] := rfl
  have hjson : save_tsne_to_json [sampleJpg, samplePng] 2 1
      (stubCollaborators.tsnePoints [sampleJpg, samplePng])
      [gridPoint 2 1 0 0, gridPoint 2 1 1 0] =
        some [{ filename := "a.jpg", tsne_pos := (0, 0), grid_pos := (0, 0) },
              { filename := "c.png", tsne_pos := (0, 0), grid_pos := (2, 0) }] := by
    simp only [save_tsne_to_json, List.length_cons, List.length_nil, Nat.zero_add,
      Nat.reduceAdd]
    rw [hr, List.mapM_cons, List.mapM_cons, List.mapM_nil]
    simp [json_image, gridPoint, cround, stubCollaborators, sampleJpg, samplePng]
    norm_num [Rat.floor_def', Int.floor_eq_iff]
  have hdraw : draw_calls stubCollaborators.toFloat sampleSettings 2 1 [sampleJpg, samplePng]
      [gridPoint 2 1 0 0, gridPoint 2 1 1 0] = some sampleComposite.draws := by
    simp only [draw_calls, List.length_cons, List.length_nil, Nat.zero_add, Nat.reduceAdd]
    rw [hr, List.mapM_cons, List.mapM_cons, List.mapM_nil]
    simp [pixel_origin, gridPoint, stubCollaborators, exactArithmetic, sampleSettings,
      sampleComposite]
    norm_num
  simp only [setup_pipeline, hload, hgrid, hjson, hdraw]
  rfl

/-- C7, on the `2` by `1` grid with thumbnails of `100` by `100` pixels: the
second record, matched to cell `(1, 0)`, is drawn at `(100, 0)` inside the
composite of `200` by `100` pixels. -/
theorem setup_draws_at_cell_origin_witness :
    (stubCollaborators.toFloat = exactArithmetic ∧
      Event.saveComposite sampleComposite ∈
        setup_pipeline stubCollaborators sampleSettings 2 1 [sampleJpg, samplePng] ∧
      ((0 : Int) ≤ 1 ∧ (1 : Int) < 2 ∧ (0 : Int) ≤ 0 ∧ (0 : Int) < 1) ∧
      (solved_grid stubCollaborators 2 1
          (load_images [sampleJpg, samplePng] 2 1).1)[1]? = some (gridPoint 2 1 1 0)) ∧
    (sampleComposite.width = 2 * sampleSettings.displayW ∧
      sampleComposite.height = 1 * sampleSettings.displayH ∧
      ∃ d : DrawCall, sampleComposite.draws[1]? = some d ∧
        [sampleJpg, samplePng][1]? = some d.image ∧
        d.width = sampleSettings.displayW ∧ d.height = sampleSettings.displayH ∧
        d.origin = (((1 * sampleSettings.displayW : Int) : ℚ),
          ((0 * sampleSettings.displayH : Int) : ℚ)) ∧
        (0 < sampleSettings.displayW → 0 < sampleSettings.displayH →
          (0 ≤ d.origin.1 ∧ d.origin.1 + (d.width : ℚ) ≤ (sampleComposite.width : ℚ) ∧
            0 ≤ d.origin.2 ∧ d.origin.2 + (d.height : ℚ) ≤ (sampleComposite.height : ℚ)) ∧
          ∀ (k2 : Nat) (i2 j2 : Int) (d2 : DrawCall),
            0 ≤ i2 → i2 < 2 → 0 ≤ j2 → j2 < 1 →
            (solved_grid stubCollaborators 2 1
                (load_images [sampleJpg, samplePng] 2 1).1)[k2]? =
              some (gridPoint 2 1 i2 j2) →
            sampleComposite.draws[k2]? = some d2 → (i2, j2) ≠ (1, 0) →
            d2.origin ≠ d.origin)) :=
  ⟨⟨rfl, by rw [setup_pipeline_sample]; simp, ⟨by decide, by decide, by decide, by decide⟩,
      rfl⟩,
    setup_draws_at_cell_origin stubCollaborators sampleSettings 2 1 [sampleJpg, samplePng]
      sampleComposite rfl (by rw [setup_pipeline_sample]; simp) 1 1 0
      (by decide) (by decide) (by decide) (by decide) rfl⟩

/-- A composite saved by a run of `setup` is saved by the statements after the
check of the number of images, for the grid of `best_grid_size` and the files of
the scan. -/
theorem saveComposite_mem_setup_with (c : Collaborators) (s : Settings) (root : List Entry)
    (comp : Composite) (h : Event.saveComposite comp ∈ setup_with c s root) :
    Event.saveComposite comp ∈
      setup_pipeline c s (best_grid_size s.n_images).1 (best_grid_size s.n_images).2
        (scan_dir_imgs root []) := by
  simp only [setup_with] at h
  split at h
  · rcases List.mem_cons.mp h with h1 | h1
    · cases h1
    · rcases List.mem_cons.mp h1 with h2 | h2
      · cases h2
      · split at h2
        · simp at h2
        · exact h2
  · exact h

/-! ## The drawing positions in `float` arithmetic -/

theorem roundHalfEven_eq (q : ℚ) (m : Int) (h1 : (m : ℚ) - 1 / 2 < q)
    (h2 : q < (m : ℚ) + 1 / 2) : roundHalfEven q = m := by
  have hf1 : ((⌊q⌋ : Int) : ℚ) ≤ q := Int.floor_le q
  have hf2 : q < ((⌊q⌋ : Int) : ℚ) + 1 := Int.lt_floor_add_one q
  have hfl : Rat.floor q = ⌊q⌋ := rfl
  unfold roundHalfEven
  rw [hfl]
  have low : ∀ n : Int, (n : ℚ) < (⌊q⌋ : ℚ) + 1 → n ≤ ⌊q⌋ := by
    intro n hn
    have : n < ⌊q⌋ + 1 := by exact_mod_cast hn
    omega
  have high : ∀ n : Int, ((⌊q⌋ : Int) : ℚ) < (n : ℚ) → ⌊q⌋ + 1 ≤ n := by
    intro n hn
    have : ⌊q⌋ < n := by exact_mod_cast hn
    omega
  split_ifs with c1 c2 c3
  · have a1 := low m (by linarith)
    have a2 := high (m + 1) (by push_cast; linarith)
    omega
  · have a1 := high m (by linarith)
    have a2 := low (m - 1) (by push_cast; linarith)
    omega
  · exfalso
    have a1 := low m (by linarith)
    have a2 := high m (by linarith)
    omega
  · exfalso
    have a1 := low m (by linarith)
    have a2 := high m (by linarith)
    omega

/-- The value of `binary32` on a positive number of the normal range: `m` units
in the last place of the binade `2 ^ e ≤ q < 2 ^ (e + 1)`. -/
theorem binary32_eq (q : ℚ) (e m : Int) (he : -126 ≤ e) (hq : 0 < q)
    (h1 : (2 : ℚ) ^ e ≤ q) (h2 : q < (2 : ℚ) ^ (e + 1))
    (hm1 : (m : ℚ) - 1 / 2 < q / (2 : ℚ) ^ (e - 23))
    (hm2 : q / (2 : ℚ) ^ (e - 23) < (m : ℚ) + 1 / 2) :
    binary32 q = (m : ℚ) * (2 : ℚ) ^ (e - 23) := by
  have habs : |q| = q := abs_of_pos hq
  have hlog : Int.log 2 q = e := by
    have a1 : e ≤ Int.log 2 q :=
      (Int.zpow_le_iff_le_log (by norm_num) hq).mp (by exact_mod_cast h1)
    have a2 : Int.log 2 q < e + 1 :=
      (Int.lt_zpow_iff_log_lt (by norm_num) hq).mp (by exact_mod_cast h2)
    omega
  unfold binary32
  rw [if_neg (ne_of_gt hq), habs, hlog, max_eq_left he, roundHalfEven_eq _ m hm1 hm2]

/-- The drawing position in `float` arithmetic, for the cell `(0, 1)` of the
`20` by `15` grid of the source with thumbnails of `100` by `100` pixels: the
grid point is the `float` nearest `(0, 1 / 14)`, and the rounded product is one
unit in the last place above `100`. -/
theorem pixel_origin_binary32_sample :
    pixel_origin binary32 20 15 100 100 { x := binary32 0, y := binary32 (1 / 14) } =
      (0, 100 + 1 / 2 ^ 17) := by
  have h0 : binary32 0 = 0 := by simp [binary32]
  have h2000 : binary32 2000 = 2000 := by
    rw [binary32_eq 2000 10 16384000 (by norm_num) (by norm_num) (by norm_num) (by norm_num)
      (by norm_num) (by norm_num)]
    norm_num
  have h1500 : binary32 1500 = 1500 := by
    rw [binary32_eq 1500 10 12288000 (by norm_num) (by norm_num) (by norm_num) (by norm_num)
      (by norm_num) (by norm_num)]
    norm_num
  have h100 : binary32 100 = 100 := by
    rw [binary32_eq 100 6 13107200 (by norm_num) (by norm_num) (by norm_num) (by norm_num)
      (by norm_num) (by norm_num)]
    norm_num
  have h1900 : binary32 1900 = 1900 := by
    rw [binary32_eq 1900 10 15564800 (by norm_num) (by norm_num) (by norm_num) (by norm_num)
      (by norm_num) (by norm_num)]
    norm_num
  have h1400 : binary32 1400 = 1400 := by
    rw [binary32_eq 1400 10 11468800 (by norm_num) (by norm_num) (by norm_num) (by norm_num)
      (by norm_num) (by norm_num)]
    norm_num
  have h14 : binary32 (1 / 14) = 9586981 / 2 ^ 27 := by
    rw [binary32_eq (1 / 14) (-4) 9586981 (by norm_num) (by norm_num) (by norm_num)
      (by norm_num) (by norm_num) (by norm_num)]
    norm_num
  have hprod : binary32 (1400 * (9586981 / 2 ^ 27)) = 100 + 1 / 2 ^ 17 := by
    rw [binary32_eq (1400 * (9586981 / 2 ^ 27)) 6 13107201 (by norm_num) (by norm_num)
      (by norm_num) (by norm_num) (by norm_num) (by norm_num)]
    norm_num
  have e1 : (((20 * 100 : Int) : ℚ)) = 2000 := by norm_num
  have e2 : (((15 * 100 : Int) : ℚ)) = 1500 := by norm_num
  have e3 : (((100 : Int) : ℚ)) = 100 := by norm_num
  have e4 : (2000 : ℚ) - 100 = 1900 := by norm_num
  have e5 : (1500 : ℚ) - 100 = 1400 := by norm_num
  simp only [pixel_origin, e1, e2, e3, h0, h2000, h1500, h100, e4, e5, h1900, h1400, h14,
    mul_zero, hprod]

/-! ## The grid positions written by `save_tsne_to_json` -/

/-- In every grid with at least two columns, a record matched to the last column
gets the x position `columns`, one past the last column index. -/
theorem grid_pos_last_column (columns rows j : Int) (hc : 2 ≤ columns) :
    cround ((gridPoint columns rows (columns - 1) j).x * columns) = columns := by
  have h1 : columns ≠ 1 := by omega
  have hne : ((columns : ℚ) - 1) ≠ 0 := by
    intro h
    apply h1
    have : (columns : ℚ) = 1 := by linarith
    exact_mod_cast this
  have hx : (gridPoint columns rows (columns - 1) j).x = 1 := by
    simp only [gridPoint, if_neg h1]
    push_cast
    exact div_self hne
  have hpos : (0 : ℚ) ≤ 1 * (columns : ℚ) := by
    have : (0 : ℚ) ≤ (columns : ℚ) := by exact_mod_cast (by omega : (0 : Int) ≤ columns)
    linarith
  rw [hx, cround, if_pos hpos]
  show ⌊(1 * (columns : ℚ) + 1 / 2)⌋ = columns
  rw [Int.floor_eq_iff]
  constructor <;> linarith

/-- C6 fails on the code for the `2` by `1` grid: with the solver result
`[(0, 0), (1, 0)]`, the two normalised grid points, the positions written are
`(0, 0)` and `(2, 0)`; the second lies outside the grid and the cell `(1, 0)` is
never written.  In the `20` by `15` grid of the source, the record matched to the
last cell `(19, 14)` is written with the position `(20, 15)`. -/
theorem save_tsne_to_json_two_by_one :
    (save_tsne_to_json [sampleJpg, samplePng] 2 1 [⟨5, 6⟩, ⟨7, 8⟩]
        [gridPoint 2 1 0 0, gridPoint 2 1 1 0]).map (List.map JsonImage.grid_pos) =
      some [(0, 0), (2, 0)] ∧
    json_image [sampleJpg] 20 15 [⟨5, 6⟩] [gridPoint 20 15 19 14] 0 =
      some { filename := "a.jpg", tsne_pos := (5, 6), grid_pos := (20, 15) } := by
  constructor
  · have hr : List.range 2 = [0, 1] := rfl
    simp only [save_tsne_to_json, List.length_cons, List.length_nil, Nat.zero_add,
      Nat.reduceAdd]
    rw [hr, List.mapM_cons, List.mapM_cons, List.mapM_nil]
    simp [json_image, gridPoint, cround]
    norm_num [Rat.floor_def', Int.floor_eq_iff]
  · simp [json_image, gridPoint, cround, sampleJpg]
    norm_num [Rat.floor_def', Int.floor_eq_iff]

end OfxTSNE
